import Mathlib

/-!
Verification of the stackfish OAuth credential lifecycle manager and
streaming LLM request gateway.  The definitions below are a shallow
embedding of `src/www/app/services/openaiOAuth.ts` (OAuth session state
machine, credential accessor, status query) and of the `llm` module
(`callCodex` SSE decode loop, fallback/retry policy, fallback chain).
-/

namespace Stackfish

/-! ## JSON values and a JSON parser (embedding of `JSON.parse`) -/

inductive Json where
  | null
  | bool (b : Bool)
  | num (raw : List Char)
  | str (s : List Char)
  | arr (elems : List Json)
  | obj (fields : List (List Char × Json))

def braceOpen : Char := Char.ofNat 123

def braceClose : Char := Char.ofNat 125

def isJsonWs (c : Char) : Bool :=
  c == ' ' || c == '\t' || c == '\n' || c == '\r'

def skipWs (cs : List Char) : List Char :=
  cs.dropWhile isJsonWs

def hexVal (c : Char) : Option Nat :=
  if '0' ≤ c ∧ c ≤ '9' then some (c.toNat - '0'.toNat)
  else if 'a' ≤ c ∧ c ≤ 'f' then some (c.toNat - 'a'.toNat + 10)
  else if 'A' ≤ c ∧ c ≤ 'F' then some (c.toNat - 'A'.toNat + 10)
  else none

def escChar (c : Char) : Option Char :=
  if c = '"' then some '"'
  else if c = '\\' then some '\\'
  else if c = '/' then some '/'
  else if c = 'b' then some (Char.ofNat 8)
  else if c = 'f' then some (Char.ofNat 12)
  else if c = 'n' then some '\n'
  else if c = 'r' then some '\r'
  else if c = 't' then some '\t'
  else none

def parseStringBody : Nat → List Char → Option (List Char × List Char)
  | 0, _ => none
  | _ + 1, [] => none
  | fuel + 1, c :: rest =>
    if c = '"' then some ([], rest)
    else if c = '\\' then
      match rest with
      | [] => none
      | e :: rest2 =>
        if e = 'u' then
          match rest2 with
          | a :: b :: c2 :: d :: rest3 =>
            match hexVal a, hexVal b, hexVal c2, hexVal d with
            | some ha, some hb, some hc, some hd =>
              (parseStringBody fuel rest3).map
                (fun p => (Char.ofNat (((ha * 16 + hb) * 16 + hc) * 16 + hd) :: p.1, p.2))
            | _, _, _, _ => none
          | _ => none
        else
          match escChar e with
          | some ec => (parseStringBody fuel rest2).map (fun p => (ec :: p.1, p.2))
          | none => none
    else if c.toNat < 32 then none
    else (parseStringBody fuel rest).map (fun p => (c :: p.1, p.2))

def parseFracPart : List Char → Option (List Char × List Char)
  | '.' :: r =>
    let p := r.span Char.isDigit
    if p.1.isEmpty then none else some ('.' :: p.1, p.2)
  | cs => some ([], cs)

def parseExpPart : List Char → Option (List Char × List Char)
  | [] => some ([], [])
  | c :: r =>
    if c = 'e' ∨ c = 'E' then
      let sr : List Char × List Char :=
        match r with
        | s :: rr => if s = '+' ∨ s = '-' then ([s], rr) else ([], r)
        | [] => ([], [])
      let p := sr.2.span Char.isDigit
      if p.1.isEmpty then none else some (c :: (sr.1 ++ p.1), p.2)
    else some ([], c :: r)

def parseNumberTail (cs : List Char) : Option (Json × List Char) :=
  let np : List Char × List Char :=
    match cs with
    | '-' :: r => (['-'], r)
    | _ => ([], cs)
  let ip := np.2.span Char.isDigit
  if ip.1.isEmpty then none
  else if ip.1.length > 1 ∧ ip.1.headD '0' = '0' then none
  else
    match parseFracPart ip.2 with
    | none => none
    | some fp =>
      match parseExpPart fp.2 with
      | none => none
      | some ep => some (.num (np.1 ++ ip.1 ++ fp.1 ++ ep.1), ep.2)

mutual

def parseValue : Nat → List Char → Option (Json × List Char)
  | 0, _ => none
  | fuel + 1, cs =>
    match skipWs cs with
    | [] => none
    | c :: rest =>
      if c = braceOpen then parseObjectBody fuel rest
      else if c = '[' then parseArrayBody fuel rest
      else if c = '"' then (parseStringBody fuel rest).map (fun p => (Json.str p.1, p.2))
      else if c = 'n' then
        match rest with
        | 'u' :: 'l' :: 'l' :: r => some (.null, r)
        | _ => none
      else if c = 't' then
        match rest with
        | 'r' :: 'u' :: 'e' :: r => some (.bool true, r)
        | _ => none
      else if c = 'f' then
        match rest with
        | 'a' :: 'l' :: 's' :: 'e' :: r => some (.bool false, r)
        | _ => none
      else if c = '-' ∨ c.isDigit then parseNumberTail (c :: rest)
      else none

def parseArrayBody : Nat → List Char → Option (Json × List Char)
  | 0, _ => none
  | fuel + 1, cs =>
    match skipWs cs with
    | ']' :: r => some (.arr [], r)
    | cs2 => (parseArrayItems fuel cs2).map (fun p => (Json.arr p.1, p.2))

def parseArrayItems : Nat → List Char → Option (List Json × List Char)
  | 0, _ => none
  | fuel + 1, cs =>
    match parseValue fuel cs with
    | none => none
    | some vr =>
      match skipWs vr.2 with
      | ',' :: r2 => (parseArrayItems fuel r2).map (fun p => (vr.1 :: p.1, p.2))
      | ']' :: r2 => some ([vr.1], r2)
      | _ => none

def parseObjectBody : Nat → List Char → Option (Json × List Char)
  | 0, _ => none
  | fuel + 1, cs =>
    match skipWs cs with
    | c :: r =>
      if c = braceClose then some (.obj [], r)
      else (parseObjectItems fuel cs).map (fun p => (Json.obj p.1, p.2))
    | [] => none

def parseObjectItems : Nat → List Char → Option (List (List Char × Json) × List Char)
  | 0, _ => none
  | fuel + 1, cs =>
    match skipWs cs with
    | '"' :: r =>
      match parseStringBody fuel r with
      | none => none
      | some kr =>
        match skipWs kr.2 with
        | ':' :: r2 =>
          match parseValue fuel r2 with
          | none => none
          | some vr =>
            match skipWs vr.2 with
            | ',' :: r3 =>
              (parseObjectItems fuel r3).map (fun p => ((kr.1, vr.1) :: p.1, p.2))
            | c4 :: r3 =>
              if c4 = braceClose then some ([(kr.1, vr.1)], r3) else none
            | [] => none
        | _ => none
    | _ => none

end

def jsonParse (cs : List Char) : Option Json :=
  match parseValue (3 * cs.length + 9) cs with
  | some vr => if skipWs vr.2 = [] then some vr.1 else none
  | none => none

/-! ## SSE event accumulation (embedding of the decode loop in `callCodex`) -/

def objLookupLast (fields : List (List Char × Json)) (key : List Char) : Option Json :=
  (fields.filterMap (fun kv => if kv.1 = key then some kv.2 else none)).getLast?

def jget (j : Json) (key : List Char) : Option Json :=
  match j with
  | .obj fs => objLookupLast fs key
  | _ => none

def asStr : Option Json → Option (List Char)
  | some (.str s) => some s
  | _ => none

def typeKey : List Char := "type".toList

def deltaKey : List Char := "delta".toList

def textKey : List Char := "text".toList

def responseKey : List Char := "response".toList

def outputTextKey : List Char := "output_text".toList

def deltaType : List Char := "response.output_text.delta".toList

def doneType : List Char := "response.output_text.done".toList

/-- Embedding of the three sequential `if` statements applied to one parsed
event in `callCodex`.  The third branch (`event?.response?.output_text`) is a
JS truthiness test; the completion endpoint's `output_text` is a string, so it
is modelled as a non-empty-string test. -/
def applyEvent (output : List Char) (j : Json) : List Char :=
  let o1 :=
    if asStr (jget j typeKey) = some deltaType then
      match asStr (jget j deltaKey) with
      | some d => output ++ d
      | none => output
    else output
  let o2 :=
    if o1 = [] ∧ asStr (jget j typeKey) = some doneType then
      match asStr (jget j textKey) with
      | some t => t
      | none => o1
    else o1
  if o2 = [] then
    match asStr ((jget j responseKey).bind (fun r => jget r outputTextKey)) with
    | some s => if s = [] then o2 else s
    | none => o2
  else o2

def isJsSpace (c : Char) : Bool :=
  c == ' ' || c == '\t' || c == '\n' || c == '\r' ||
    c == Char.ofNat 11 || c == Char.ofNat 12 || c == Char.ofNat 160 || c == Char.ofNat 65279

def jsTrim (cs : List Char) : List Char :=
  ((cs.dropWhile isJsSpace).reverse.dropWhile isJsSpace).reverse

def splitLines : List Char → List (List Char)
  | [] => [[]]
  | c :: rest =>
    if c = '\n' then [] :: splitLines rest
    else
      match splitLines rest with
      | [] => [[c]]
      | p :: ps => (c :: p) :: ps

def dataMarker : List Char := "data:".toList

def doneMarker : List Char := "[DONE]".toList

def partData (part : List Char) : List Char :=
  let dataLines := (splitLines part).filter (fun l => dataMarker.isPrefixOf l)
  (['\n'] : List Char).intercalate (dataLines.map (fun l => jsTrim (l.drop 5)))

/-- Embedding of the body of `for (const part of parts)` in `callCodex`;
`partData` is the joined payload of the part's data lines. -/
def processPart (output : List Char) (part : List Char) : List Char :=
  if ((splitLines part).filter (fun l => dataMarker.isPrefixOf l)).isEmpty then output
  else
    let data := partData part
    if data = [] ∨ data = doneMarker then output
    else
      match jsonParse data with
      | none => output
      | some j => applyEvent output j

def consHead (c : Char) : List (List Char) → List (List Char)
  | [] => [[c]]
  | p :: ps => (c :: p) :: ps

/-- Embedding of `buffer.split('\n\n')`: leftmost, non-overlapping splitting
on the two-character separator. -/
def splitBlocks : List Char → List (List Char)
  | [] => [[]]
  | [c] => [[c]]
  | c1 :: c2 :: rest =>
    if c1 = '\n' ∧ c2 = '\n' then [] :: splitBlocks rest
    else consHead c1 (splitBlocks (c2 :: rest))

/-- One iteration of the read loop: append the chunk to the carried buffer,
split off complete blocks, keep the trailing remainder, process the blocks. -/
def feedChunk (st : List Char × List Char) (chunk : List Char) : List Char × List Char :=
  let parts := splitBlocks (st.1 ++ chunk)
  (parts.getLastD [], parts.dropLast.foldl processPart st.2)

/-- The whole decode loop of `callCodex` over a sequence of received chunks;
the trailing buffer remainder is discarded when the stream ends. -/
def decodeStream (chunks : List (List Char)) : List Char :=
  (chunks.foldl feedChunk ([], [])).2

/-! ## Gateway fallback / retry policy (embedding of the `llm` Codex branch) -/

structure CodexError where
  status : Option Nat
  msg : String
deriving DecidableEq

inductive CallResult where
  | ok (output : String)
  | fail (status : Option Nat) (msg : String)
deriving DecidableEq

/-- Embedding of `if (err.status && err.status !== 400 && err.status !== 429 &&
err.status !== 500 && err.status !== 503)`: JS truthiness makes status 0
behave like an absent status. -/
def isFatalStatus : Option Nat → Bool
  | none => false
  | some s => s != 0 && s != 400 && s != 429 && s != 500 && s != 503

inductive CandOutcome where
  | ok (output : String)
  | fatal (e : CodexError)
  | giveUp (last : Option CodexError)
deriving DecidableEq

/-- Embedding of the inner `for (let attempt = 0; attempt < 3; ...)` loop for
one candidate.  Returns the outcome together with the number of calls made. -/
def runAttempts (call : Nat → CallResult) : Nat → Nat → Option CodexError → CandOutcome × Nat
  | _, 0, last => (.giveUp last, 0)
  | attempt, r + 1, _ =>
    match call attempt with
    | .ok out => (.ok out, 1)
    | .fail st m =>
      let e : CodexError := ⟨st, m⟩
      if isFatalStatus st then (.fatal e, 1)
      else if st = some 400 then (.giveUp (some e), 1)
      else
        let p := runAttempts call (attempt + 1) r (some e)
        (p.1, p.2 + 1)

inductive LlmOutcome where
  | ok (output : String)
  | err (e : CodexError)
deriving DecidableEq

def orElseErr : Option CodexError → Option CodexError → Option CodexError
  | some e, _ => some e
  | none, prev => prev

/-- Embedding of the outer `for (const candidate of fallbackModels)` loop,
threading `lastError`; additionally returns the trace of
(candidate, number of attempts made). -/
def runFallback (call : String → Nat → CallResult) :
    List String → Option CodexError → LlmOutcome × List (String × Nat)
  | [], last =>
    (match last with
     | some e => .err e
     | none => .err ⟨none, "Codex request failed"⟩, [])
  | c :: rest, last =>
    match runAttempts (call c) 0 3 none with
    | (.ok out, n) => (.ok out, [(c, n)])
    | (.fatal e, n) => (.err e, [(c, n)])
    | (.giveUp newLast, n) =>
      let p := runFallback call rest (orElseErr newLast last)
      (p.1, (c, n) :: p.2)

def priorityModels : List String :=
  ["gpt-5.3-codex", "gpt-5.2-codex", "gpt-5.1-codex", "gpt-5.1-codex-mini", "gpt-5.1-codex-max"]

def dedupKeepFirstAux (seen : List String) : List String → List String
  | [] => []
  | a :: l =>
    if a ∈ seen then dedupKeepFirstAux seen l
    else a :: dedupKeepFirstAux (a :: seen) l

/-- Embedding of `Array.from(new Set(list))`: JS `Set` iteration order is
insertion order, so duplicates are removed keeping the first occurrence. -/
def dedupKeepFirst (l : List String) : List String :=
  dedupKeepFirstAux [] l

/-- Embedding of the `fallbackModels` array built in `llm`. -/
def fallbackModels (model : String) : List String :=
  dedupKeepFirst (model :: priorityModels)

/-- The Codex branch of `llm`: run the fallback loop over the chain. -/
def llmCodex (call : String → Nat → CallResult) (model : String) :
    LlmOutcome × List (String × Nat) :=
  runFallback call (fallbackModels model) none

/-! ## OAuth data model (embedding of `openaiOAuth.ts`) -/

structure TokenResponse where
  id_token : String
  access_token : String
  refresh_token : String
  expires_in : Option Int
deriving DecidableEq

structure OpenAIAuth where
  type : String
  access : String
  refresh : String
  expires : Int
  accountId : Option String
deriving DecidableEq

inductive StatusKind where
  | idle
  | pending
  | success
  | error
deriving DecidableEq

structure OAuthStatus where
  status : StatusKind
  error : Option String
deriving DecidableEq

structure PendingOAuth where
  pkceVerifier : String
  pkceChallenge : String
  state : String
  timerId : Nat
deriving DecidableEq

/-- JS truthiness of an optional string parameter: `null`/`undefined` and the
empty string are falsy. -/
def truthyOpt : Option String → Bool
  | some s => s != ""
  | none => false

/-- Embedding of `readAuth`: the stored record is accepted only if its shape
check passes (`parsed?.type === "oauth" && parsed.access && parsed.refresh &&
parsed.expires`, all truthiness tests). -/
def readAuth (disk : Option OpenAIAuth) : Option OpenAIAuth :=
  match disk with
  | some a =>
    if a.type = "oauth" ∧ a.access ≠ "" ∧ a.refresh ≠ "" ∧ a.expires ≠ 0 then some a
    else none
  | none => none

/-- Embedding of `const accountId = extractAccountId(tokens) || auth.accountId`
followed by `...(accountId ? { accountId } : {})`. -/
def accountIdField (extracted fallbck : Option String) : Option String :=
  let acc := if truthyOpt extracted then extracted else fallbck
  if truthyOpt acc then acc else none

/-- Embedding of `ensureOpenAIAuth`.  The token-refresh network exchange and
the claims extraction are external effects, passed in as oracles.  Returns the
call's result (`Except` models a thrown error) together with the disk contents
after the call. -/
def ensureOpenAIAuth (extractAcc : TokenResponse → Option String)
    (disk : Option OpenAIAuth) (now : Int)
    (refresh : String → Except String TokenResponse) :
    Except String (Option OpenAIAuth) × Option OpenAIAuth :=
  match readAuth disk with
  | none => (.ok none, disk)
  | some auth =>
    if auth.access = "" ∨ auth.expires < now then
      match refresh auth.refresh with
      | .error e => (.error e, disk)
      | .ok tokens =>
        let updated : OpenAIAuth :=
          { type := "oauth"
            access := tokens.access_token
            refresh := tokens.refresh_token
            expires := now + (tokens.expires_in.getD 3600) * 1000
            accountId := accountIdField (extractAcc tokens) auth.accountId }
        (.ok (some updated), some updated)
    else (.ok (some auth), disk)

structure AuthStatusView where
  status : StatusKind
  error : Option String
  connected : Bool
  accountId : Option String
deriving DecidableEq

/-- Embedding of `getOpenAIAuthStatus`. -/
def getOpenAIAuthStatus (disk : Option OpenAIAuth) (st : OAuthStatus) : AuthStatusView :=
  let auth := readAuth disk
  { status := if auth.isSome ∧ st.status = .idle then .success else st.status
    error := st.error
    connected := auth.isSome
    accountId := auth.bind (fun a => a.accountId) }

/-! ## OAuth session state machine

Process-wide mutable state (`server`, `pending`, `oauthState`, the credential
file) plus bookkeeping that makes timer activity and credential writes
observable: `activeTimers` is the set of armed `setTimeout` timers,
`nextTimer` a fresh-id counter, `writes` the number of `writeAuth` calls. -/

structure SysState where
  server : Bool
  pending : Option PendingOAuth
  oauthState : OAuthStatus
  disk : Option OpenAIAuth
  activeTimers : List Nat
  nextTimer : Nat
  writes : Nat
deriving DecidableEq

def initState : SysState :=
  { server := false
    pending := none
    oauthState := { status := .idle, error := none }
    disk := none
    activeTimers := []
    nextTimer := 0
    writes := 0 }

/-- Embedding of `clearPending`: cancel the pending session's timer (if any)
and drop the session. -/
def clearPending (s : SysState) : SysState :=
  match s.pending with
  | some p =>
    { s with pending := none, activeTimers := s.activeTimers.filter (fun t => t ≠ p.timerId) }
  | none => { s with pending := none }

/-- Embedding of `stopOAuthServer`. -/
def stopOAuthServer (s : SysState) : SysState :=
  { s with server := false }

/-- Embedding of `startOpenAIAuthorize` (the PKCE pair and state token are
random values, passed in as parameters): start the server if not running,
discard any prior session cancelling its timer, record the new session with a
fresh timer, set status to pending. -/
def startAuthorize (verifier challenge stateTok : String) (s : SysState) : SysState :=
  let s := { s with server := true }
  let s := clearPending s
  let id := s.nextTimer
  { s with
    pending := some { pkceVerifier := verifier, pkceChallenge := challenge,
                      state := stateTok, timerId := id }
    activeTimers := s.activeTimers ++ [id]
    nextTimer := id + 1
    oauthState := { status := .pending, error := none } }

/-- Embedding of the `setTimeout` handler armed in `startOpenAIAuthorize`: a
timer can only run while it is armed; firing disarms it. -/
def fireTimeout (id : Nat) (s : SysState) : SysState :=
  if id ∈ s.activeTimers then
    let s := { s with activeTimers := s.activeTimers.filter (fun t => t ≠ id) }
    let s := { s with oauthState :=
      { status := .error, error := some "OAuth callback timeout - authorization took too long" } }
    stopOAuthServer (clearPending s)
  else s

instance : DecidableEq (Except String TokenResponse)
  | .ok a, .ok b =>
    if h : a = b then .isTrue (by rw [h]) else .isFalse (by simp [h])
  | .ok _, .error _ => .isFalse (by simp)
  | .error _, .ok _ => .isFalse (by simp)
  | .error a, .error b =>
    if h : a = b then .isTrue (by rw [h]) else .isFalse (by simp [h])

structure CallbackParams where
  code : Option String
  state : Option String
  error : Option String
  errorDescription : Option String
  now : Int
  exchange : Except String TokenResponse
deriving DecidableEq

/-- `!pending || state !== pending.state` (the query parameter is
`string | null`, the session's state a string). -/
def stateMismatch (pending : Option PendingOAuth) (state : Option String) : Prop :=
  match pending with
  | none => True
  | some p => state ≠ some p.state

instance (pending : Option PendingOAuth) (state : Option String) :
    Decidable (stateMismatch pending state) := by
  unfold stateMismatch
  match pending with
  | none => exact inferInstance
  | some p => exact inferInstance

/-- Embedding of `handleCallback`.  The `exchange` field of the parameters is
the outcome the token-exchange network call would have; the returned `Bool`
records whether that network call was actually performed.  The `Nat` is the
HTTP status of the rendered response page. -/
def handleCallback (extractAcc : TokenResponse → Option String)
    (p : CallbackParams) (s : SysState) : SysState × Bool × Nat :=
  if truthyOpt p.error then
    let message := if truthyOpt p.errorDescription then p.errorDescription.getD ""
                   else p.error.getD ""
    (stopOAuthServer (clearPending
       { s with oauthState := { status := .error, error := some message } }),
     false, 400)
  else if ¬ truthyOpt p.code then
    (stopOAuthServer (clearPending
       { s with oauthState := { status := .error, error := some "Missing authorization code" } }),
     false, 400)
  else if stateMismatch s.pending p.state then
    (stopOAuthServer (clearPending
       { s with oauthState :=
           { status := .error, error := some "Invalid state - potential CSRF attack" } }),
     false, 400)
  else
    match p.exchange with
    | .error msg =>
      (stopOAuthServer (clearPending
         { s with oauthState := { status := .error, error := some msg } }),
       true, 500)
    | .ok tokens =>
      let auth : OpenAIAuth :=
        { type := "oauth"
          access := tokens.access_token
          refresh := tokens.refresh_token
          expires := p.now + (tokens.expires_in.getD 3600) * 1000
          accountId := accountIdField (extractAcc tokens) none }
      (stopOAuthServer (clearPending
         { s with disk := some auth, writes := s.writes + 1,
                  oauthState := { status := .success, error := none } }),
       true, 200)

/-- Embedding of `handleCancel`. -/
def handleCancel (s : SysState) : SysState :=
  stopOAuthServer (clearPending
    { s with oauthState := { status := .error, error := some "Login cancelled" } })

inductive OAuthEvent where
  | start (verifier challenge stateTok : String)
  | callback (p : CallbackParams)
  | timeoutFire (id : Nat)
  | cancel
deriving DecidableEq

def oauthStep (extractAcc : TokenResponse → Option String)
    (s : SysState) : OAuthEvent → SysState
  | .start v c st => startAuthorize v c st s
  | .callback p => (handleCallback extractAcc p s).1
  | .timeoutFire id => fireTimeout id s
  | .cancel => handleCancel s

def oauthRun (extractAcc : TokenResponse → Option String)
    (s : SysState) (evs : List OAuthEvent) : SysState :=
  evs.foldl (oauthStep extractAcc) s

/-- The armed-timer invariant: the armed timers are exactly the pending
session's timer, and that timer id is fresh-bounded by the counter. -/
def timerInv (s : SysState) : Prop :=
  match s.pending with
  | some p => s.activeTimers = [p.timerId] ∧ p.timerId < s.nextTimer
  | none => s.activeTimers = []

instance (s : SysState) : Decidable (timerInv s) := by
  unfold timerInv
  match s.pending with
  | some p => exact inferInstance
  | none => exact inferInstance

/-- The condition under which a step is a terminal success: a callback with no
truthy error, a truthy code, a matching state, and a successful exchange. -/
def succeedsOn (s : SysState) : OAuthEvent → Bool
  | .callback p =>
    !truthyOpt p.error && truthyOpt p.code && !(decide (stateMismatch s.pending p.state)) &&
      (match p.exchange with | .ok _ => true | .error _ => false)
  | _ => false

/-- The spec scenario stream body for the SSE decode loop. -/
def sseScenarioBody : List Char :=
  ("data: \x7b\"type\":\"response.output_text.delta\",\"delta\":\"Hel\"\x7d\n\n" ++
   "data: \x7b\"type\":\"response.output_text.delta\",\"delta\":\"lo\"\x7d\n\n" ++
   "data: [DONE]\n\n").toList

/-- The spec scenario: Start followed by an immediate Cancel. -/
def cancelScenario : SysState :=
  oauthRun (fun _ => none) initState [.start "v" "c" "s", .cancel]

/-! ## Lemmas about block splitting and the buffered decode loop -/

theorem consHead_ne_nil (c : Char) (L : List (List Char)) : consHead c L ≠ [] := by
  cases L <;> simp [consHead]

theorem splitBlocks_ne_nil (l : List Char) : splitBlocks l ≠ [] := by
  match l with
  | [] => simp [splitBlocks]
  | [c] => simp [splitBlocks]
  | c1 :: c2 :: rest =>
    simp only [splitBlocks]
    split
    · simp
    · exact consHead_ne_nil _ _

theorem splitBlocks_singleton (l p : List Char) (h : splitBlocks l = [p]) : p = l := by
  induction l using splitBlocks.induct generalizing p with
  | case1 =>
    simp only [splitBlocks, List.cons.injEq, and_true] at h
    exact h.symm
  | case2 c =>
    simp only [splitBlocks, List.cons.injEq, and_true] at h
    exact h.symm
  | case3 c1 c2 rest hsep ih =>
    obtain ⟨rfl, rfl⟩ := hsep
    rw [show splitBlocks ('\n' :: '\n' :: rest) = [] :: splitBlocks rest from by
      simp [splitBlocks]] at h
    simp only [List.cons.injEq] at h
    exact absurd h.2 (splitBlocks_ne_nil rest)
  | case4 c1 c2 rest hsep ih =>
    simp only [splitBlocks, if_neg hsep] at h
    rcases hL : splitBlocks (c2 :: rest) with _ | ⟨q, qs⟩
    · exact absurd hL (splitBlocks_ne_nil _)
    · rw [hL] at h
      simp only [consHead, List.cons.injEq] at h
      obtain ⟨rfl, rfl⟩ := h
      have := ih q (by rw [hL])
      simp [this]

theorem getLastD_irrel (l : List (List Char)) (h : l ≠ []) (d1 d2 : List Char) :
    l.getLastD d1 = l.getLastD d2 := by
  cases l with
  | nil => exact absurd rfl h
  | cons a t => rw [List.getLastD_cons, List.getLastD_cons]

theorem getLastD_append_right (A B : List (List Char)) (h : B ≠ []) :
    (A ++ B).getLastD [] = B.getLastD [] := by
  rw [List.getLastD_eq_getLast?, List.getLastD_eq_getLast?, List.getLast?_append]
  rcases hB : B.getLast? with _ | v
  · exact absurd (List.getLast?_eq_none_iff.mp hB) h
  · simp [Option.or]

/-- Leftmost splitting on the blank-line separator is compositional: splitting
`x ++ y` splits `x`, keeps its last fragment as carry, and continues on the
carry followed by `y`. -/
theorem splitBlocks_append (x y : List Char) :
    splitBlocks (x ++ y) =
      (splitBlocks x).dropLast ++ splitBlocks ((splitBlocks x).getLastD [] ++ y) := by
  induction x using splitBlocks.induct with
  | case1 => simp [splitBlocks]
  | case2 c => simp [splitBlocks]
  | case3 c1 c2 rest hsep ih =>
    obtain ⟨rfl, rfl⟩ := hsep
    have hne := splitBlocks_ne_nil rest
    rcases hL : splitBlocks rest with _ | ⟨p, ps⟩
    · exact absurd hL hne
    have e1 : splitBlocks (('\n' :: '\n' :: rest) ++ y) = [] :: splitBlocks (rest ++ y) := by
      simp [splitBlocks]
    have e2 : splitBlocks ('\n' :: '\n' :: rest) = [] :: splitBlocks rest := by
      simp [splitBlocks]
    rw [e1, e2, hL, ih, hL]
    simp [List.getLastD_cons, List.dropLast_cons₂]
  | case4 c1 c2 rest hsep ih =>
    have hne := splitBlocks_ne_nil (c2 :: rest)
    rcases hL : splitBlocks (c2 :: rest) with _ | ⟨p, ps⟩
    · exact absurd hL hne
    simp only [List.cons_append] at ih ⊢
    have e1 : splitBlocks (c1 :: c2 :: (rest ++ y)) =
        consHead c1 (splitBlocks (c2 :: (rest ++ y))) := by
      simp only [splitBlocks, if_neg hsep]
    have e2 : splitBlocks (c1 :: c2 :: rest) = consHead c1 (splitBlocks (c2 :: rest)) := by
      simp only [splitBlocks, if_neg hsep]
    cases ps with
    | nil =>
      have hp : p = c2 :: rest := splitBlocks_singleton _ _ hL
      subst hp
      have e3 : splitBlocks (c1 :: c2 :: rest) = [c1 :: c2 :: rest] := by
        rw [e2, hL]; rfl
      rw [e3]
      simp only [List.dropLast_single, List.nil_append, List.getLastD_cons,
        List.getLastD_nil, List.cons_append]
    | cons q qs =>
      rw [e1, ih, e2, hL]
      simp only [consHead, List.dropLast_cons₂, List.getLastD_cons, List.cons_append]

/-- Feeding two chunks in sequence is the same as feeding their concatenation. -/
theorem feedChunk_append (st : List Char × List Char) (a b : List Char) :
    feedChunk (feedChunk st a) b = feedChunk st (a ++ b) := by
  obtain ⟨buf, out⟩ := st
  have hne := splitBlocks_ne_nil (buf ++ a)
  rcases hP : splitBlocks (buf ++ a) with _ | ⟨p, ps⟩
  · exact absurd hP hne
  have hne2 := splitBlocks_ne_nil ((p :: ps).getLastD [] ++ b)
  have hsplit : splitBlocks (buf ++ (a ++ b)) =
      (p :: ps).dropLast ++ splitBlocks ((p :: ps).getLastD [] ++ b) := by
    rw [← List.append_assoc, splitBlocks_append (buf ++ a) b, hP]
  simp only [feedChunk, hP, hsplit, Prod.mk.injEq]
  refine ⟨?_, ?_⟩
  · rw [getLastD_append_right _ _ hne2]
  · rw [List.dropLast_append_of_ne_nil _ hne2, List.foldl_append]

/-- Folding the decode loop over any chunk list equals feeding the
concatenated body as one chunk, starting from the initial state. -/
theorem foldl_feedChunk_flatten (chunks : List (List Char)) (out : List Char) :
    chunks.foldl feedChunk ([], out) = feedChunk ([], out) chunks.flatten := by
  induction chunks using List.reverseRecOn with
  | nil => simp [feedChunk, splitBlocks, List.getLastD]
  | append_singleton cs c ih =>
    rw [List.foldl_append, ih, List.flatten_append]
    simp only [List.foldl_cons, List.foldl_nil, List.flatten, List.append_nil]
    rw [feedChunk_append]

/-- C4: for every stream body and every partition of that body into chunks
(including splits mid-line and mid-block), the buffered decode loop yields the
same accumulated output as delivering the whole body in a single chunk. -/
theorem decodeStream_chunk_invariant (chunks : List (List Char)) :
    decodeStream chunks = decodeStream [chunks.flatten] := by
  simp only [decodeStream, foldl_feedChunk_flatten, List.foldl_cons, List.foldl_nil,
    List.flatten, List.append_nil]

/-! ## Lemmas about the fallback chain -/

theorem mem_dedupKeepFirstAux (l : List String) :
    ∀ seen x, x ∈ dedupKeepFirstAux seen l ↔ x ∈ l ∧ x ∉ seen := by
  induction l with
  | nil => intro seen x; simp [dedupKeepFirstAux]
  | cons a t ih =>
    intro seen x
    simp only [dedupKeepFirstAux]
    by_cases ha : a ∈ seen
    · rw [if_pos ha, ih]
      constructor
      · rintro ⟨hx, hns⟩
        exact ⟨List.mem_cons_of_mem _ hx, hns⟩
      · rintro ⟨hx, hns⟩
        rcases List.mem_cons.mp hx with rfl | hx2
        · exact absurd ha hns
        · exact ⟨hx2, hns⟩
    · rw [if_neg ha]
      constructor
      · intro hmem
        rcases List.mem_cons.mp hmem with rfl | hx2
        · exact ⟨List.mem_cons_self _ _, ha⟩
        · obtain ⟨hxt, hxs⟩ := (ih (a :: seen) x).mp hx2
          refine ⟨List.mem_cons_of_mem _ hxt, fun hc => hxs (List.mem_cons_of_mem _ hc)⟩
      · rintro ⟨hx, hns⟩
        by_cases hxa : x = a
        · subst hxa; exact List.mem_cons_self _ _
        · rcases List.mem_cons.mp hx with h1 | hx2
          · exact absurd h1 hxa
          · refine List.mem_cons_of_mem _ ((ih (a :: seen) x).mpr ⟨hx2, ?_⟩)
            intro hc
            rcases List.mem_cons.mp hc with h1 | h2
            · exact hxa h1
            · exact hns h2

theorem nodup_dedupKeepFirstAux (l : List String) :
    ∀ seen, (dedupKeepFirstAux seen l).Nodup := by
  induction l with
  | nil => intro seen; simp [dedupKeepFirstAux]
  | cons a t ih =>
    intro seen
    simp only [dedupKeepFirstAux]
    split
    · exact ih seen
    · refine List.Nodup.cons ?_ (ih (a :: seen))
      intro hmem
      exact ((mem_dedupKeepFirstAux t (a :: seen) a).mp hmem).2 (List.mem_cons_self a seen)

theorem sublist_dedupKeepFirstAux (l : List String) :
    ∀ seen, (dedupKeepFirstAux seen l).Sublist l := by
  induction l with
  | nil => intro seen; simp [dedupKeepFirstAux]
  | cons a t ih =>
    intro seen
    simp only [dedupKeepFirstAux]
    split
    · exact (ih seen).trans (List.sublist_cons_self a t)
    · exact (ih (a :: seen)).cons₂ a

/-- C6: the per-request fallback chain has the requested model first, is the
fixed priority list after it with duplicates removed keeping the first
occurrence (an order-preserving sublist with the same members), and has no
duplicate entries — also when the requested model already occurs in the fixed
priority list. -/
theorem fallback_chain_spec (m : String) :
    (fallbackModels m).head? = some m ∧
    (fallbackModels m).Nodup ∧
    (fallbackModels m).Sublist (m :: priorityModels) ∧
    (∀ x, x ∈ fallbackModels m ↔ x ∈ m :: priorityModels) ∧
    (m ∈ priorityModels →
      (fallbackModels m).Nodup ∧ (fallbackModels m).head? = some m) := by
  refine ⟨?_, ?_, ?_, ?_, ?_⟩
  · simp [fallbackModels, dedupKeepFirst, dedupKeepFirstAux]
  · exact nodup_dedupKeepFirstAux _ _
  · exact sublist_dedupKeepFirstAux _ _
  · intro x
    rw [fallbackModels, dedupKeepFirst, mem_dedupKeepFirstAux]
    simp
  · intro _
    exact ⟨nodup_dedupKeepFirstAux _ _, by simp [fallbackModels, dedupKeepFirst, dedupKeepFirstAux]⟩

/-- Witness for `fallback_chain_spec`: a model already in the fixed priority
list still yields a duplicate-free chain with that model first. -/
theorem fallback_chain_spec_witness :
    (fallbackModels "gpt-5.2-codex").Nodup ∧
      (fallbackModels "gpt-5.2-codex").head? = some "gpt-5.2-codex" :=
  (fallback_chain_spec "gpt-5.2-codex").2.2.2.2 (by decide)

/-! ## The status query -/

/-- C9: the status query coerces `idle` to `success` exactly when a persisted
credential exists, otherwise returns the internal status unchanged; the
`connected` flag is true exactly when a credential record exists, and
`accountId` comes from the stored credential. -/
theorem status_query_spec (disk : Option OpenAIAuth) (st : OAuthStatus) :
    ((readAuth disk).isSome → st.status = .idle →
      (getOpenAIAuthStatus disk st).status = .success) ∧
    (st.status ≠ .idle → (getOpenAIAuthStatus disk st).status = st.status) ∧
    (readAuth disk = none → (getOpenAIAuthStatus disk st).status = st.status) ∧
    ((getOpenAIAuthStatus disk st).connected = true ↔ (readAuth disk).isSome) ∧
    (getOpenAIAuthStatus disk st).accountId = (readAuth disk).bind (fun a => a.accountId) ∧
    (getOpenAIAuthStatus disk st).error = st.error := by
  refine ⟨?_, ?_, ?_, ?_, ?_, ?_⟩
  · intro h hidle; simp [getOpenAIAuthStatus, h, hidle]
  · intro h
    simp only [getOpenAIAuthStatus]
    rw [if_neg]
    rintro ⟨_, hc⟩
    exact h hc
  · intro h; simp [getOpenAIAuthStatus, h]
  · simp [getOpenAIAuthStatus]
  · simp [getOpenAIAuthStatus]
  · simp [getOpenAIAuthStatus]

/-- Witness for `status_query_spec` at a concrete credential and state. -/
theorem status_query_spec_witness :
    (getOpenAIAuthStatus
        (some { type := "oauth", access := "a", refresh := "r", expires := 5,
                accountId := some "acct" })
        { status := .idle, error := none }).status = .success :=
  (status_query_spec _ _).1 (by decide) (by decide)

/-! ## The credential accessor -/

/-- C5: `ensureOpenAIAuth` returns the stored credential unchanged when it is
present with a non-empty access value and unexpired; a refresh replaces the
stored credential wholesale (one write of a record whose every field comes
from the refresh response); a failed refresh propagates the error, does not
return the stale credential, and leaves the disk untouched. -/
theorem ensure_auth_spec (ex : TokenResponse → Option String) (disk : Option OpenAIAuth)
    (now : Int) (refresh : String → Except String TokenResponse) :
    (∀ a, readAuth disk = some a → a.access ≠ "" → ¬ a.expires < now →
      ensureOpenAIAuth ex disk now refresh = (.ok (some a), disk)) ∧
    (∀ a e, readAuth disk = some a → (a.access = "" ∨ a.expires < now) →
      refresh a.refresh = .error e →
      ensureOpenAIAuth ex disk now refresh = (.error e, disk)) ∧
    (∀ a tok, readAuth disk = some a → (a.access = "" ∨ a.expires < now) →
      refresh a.refresh = .ok tok →
      ensureOpenAIAuth ex disk now refresh =
        (.ok (some { type := "oauth", access := tok.access_token,
                     refresh := tok.refresh_token,
                     expires := now + (tok.expires_in.getD 3600) * 1000,
                     accountId := accountIdField (ex tok) a.accountId }),
         some { type := "oauth", access := tok.access_token,
                refresh := tok.refresh_token,
                expires := now + (tok.expires_in.getD 3600) * 1000,
                accountId := accountIdField (ex tok) a.accountId })) := by
  refine ⟨?_, ?_, ?_⟩
  · intro a ha hacc hexp
    simp only [ensureOpenAIAuth, ha]
    rw [if_neg (by tauto)]
  · intro a e ha hcond hre
    simp only [ensureOpenAIAuth, ha]
    rw [if_pos hcond, hre]
  · intro a tok ha hcond hre
    simp only [ensureOpenAIAuth, ha]
    rw [if_pos hcond, hre]

/-- Witness for `ensure_auth_spec`: an unexpired credential is returned
unchanged with the disk untouched. -/
theorem ensure_auth_spec_witness :
    ensureOpenAIAuth (fun _ => none)
        (some { type := "oauth", access := "tokA", refresh := "tokR", expires := 100,
                accountId := none })
        50 (fun _ => .error "unused") =
      (.ok (some { type := "oauth", access := "tokA", refresh := "tokR", expires := 100,
                   accountId := none }),
       some { type := "oauth", access := "tokA", refresh := "tokR", expires := 100,
              accountId := none }) :=
  (ensure_auth_spec _ _ _ _).1 _ (by decide) (by decide) (by decide)

/-! ## The callback CSRF guard -/

/-- C1: when the redirect carries no truthy error and a truthy code but the
state does not match the pending session state (or no session is pending),
`handleCallback` sets the error status with the message flagging a potential
CSRF attack and never performs the token-exchange network call; no credential
is written. -/
theorem callback_csrf_guard (ex : TokenResponse → Option String)
    (p : CallbackParams) (s : SysState)
    (herr : truthyOpt p.error = false) (hcode : truthyOpt p.code = true)
    (hmis : stateMismatch s.pending p.state) :
    (handleCallback ex p s).2.1 = false ∧
    (handleCallback ex p s).1.oauthState =
      { status := .error, error := some "Invalid state - potential CSRF attack" } ∧
    (handleCallback ex p s).1.disk = s.disk ∧
    (handleCallback ex p s).1.writes = s.writes := by
  have hres : handleCallback ex p s =
      (stopOAuthServer (clearPending
        { s with oauthState :=
            { status := .error, error := some "Invalid state - potential CSRF attack" } }),
       false, 400) := by
    simp [handleCallback, herr, hcode, hmis]
  rw [hres]
  cases hp : s.pending <;> simp [clearPending, stopOAuthServer, hp]

/-- Witness for `callback_csrf_guard` at a concrete mismatched redirect. -/
theorem callback_csrf_guard_witness :
    (handleCallback (fun _ => none)
        { code := some "abc", state := some "evil", error := none,
          errorDescription := none, now := 0, exchange := .error "unused" }
        initState).2.1 = false :=
  (callback_csrf_guard _ _ _ (by decide) (by decide) (by decide)).1

/-! ## The cancel scenario -/

/-- C8 counterexample: after Start then immediate Cancel the recorded message
is "Login cancelled" (capital L), so the claim stating the message
"login cancelled" is false on the code. -/
theorem cancel_message_counterexample :
    cancelScenario.oauthState.status = .error ∧
    cancelScenario.oauthState.error = some "Login cancelled" ∧
    cancelScenario.oauthState.error ≠ some "login cancelled" := by
  decide

/-- C8 (amended): after Start followed by an immediate Cancel before any
redirect, the status is error with message "Login cancelled", the pending
session is cleared, the listener is stopped, and no credential is written. -/
theorem cancel_scenario_spec :
    cancelScenario.oauthState = { status := .error, error := some "Login cancelled" } ∧
    cancelScenario.pending = none ∧
    cancelScenario.server = false ∧
    cancelScenario.writes = 0 ∧
    cancelScenario.disk = none := by
  decide

/-! ## Lemmas about the retry / fallback loop -/

theorem runAttempts_succ (f : Nat → CallResult) (a r : Nat) (last : Option CodexError) :
    runAttempts f a (r + 1) last =
      match f a with
      | .ok out => (.ok out, 1)
      | .fail st m =>
        if isFatalStatus st then (.fatal ⟨st, m⟩, 1)
        else if st = some 400 then (.giveUp (some ⟨st, m⟩), 1)
        else ((runAttempts f (a + 1) r (some ⟨st, m⟩)).1,
              (runAttempts f (a + 1) r (some ⟨st, m⟩)).2 + 1) := by
  cases hfa : f a with
  | ok out => simp [runAttempts, hfa]
  | fail st m => simp [runAttempts, hfa]

theorem runAttempts_calls_le (f : Nat → CallResult) :
    ∀ r a last, (runAttempts f a r last).2 ≤ r := by
  intro r
  induction r with
  | zero => intro a last; simp [runAttempts]
  | succ n ih =>
    intro a last
    rw [runAttempts_succ]
    cases f a with
    | ok out => simp
    | fail st m =>
      dsimp only
      by_cases hf : isFatalStatus st = true
      · simp [hf]
      · by_cases h400 : st = some 400
        · rw [if_neg hf, if_pos h400]
          omega
        · rw [if_neg hf, if_neg h400]
          have := ih (a + 1) (some ⟨st, m⟩)
          simpa using Nat.succ_le_succ this

theorem runFallback_trace_le (call : String → Nat → CallResult) :
    ∀ chain last cn, cn ∈ (runFallback call chain last).2 → cn.2 ≤ 3 := by
  intro chain
  induction chain with
  | nil => intro last cn h; simp [runFallback] at h
  | cons c rest ih =>
    intro last cn h
    have hn := runAttempts_calls_le (call c) 3 0 none
    simp only [runFallback] at h
    rcases hr : runAttempts (call c) 0 3 none with ⟨o, n⟩
    rw [hr] at h hn
    cases o with
    | ok out =>
      simp at h
      rw [h]
      exact hn
    | fatal e =>
      simp at h
      rw [h]
      exact hn
    | giveUp newLast =>
      simp only [List.mem_cons] at h
      rcases h with rfl | h
      · exact hn
      · exact ih _ cn h

theorem runFallback_exhausted (call : String → Nat → CallResult) :
    ∀ chain last clast (f : String → CodexError), chain.getLast? = some clast →
      (∀ c, c ∈ chain → (runAttempts (call c) 0 3 none).1 = .giveUp (some (f c))) →
      (runFallback call chain last).1 = .err (f clast) := by
  intro chain
  induction chain with
  | nil => intro last clast f h; simp at h
  | cons c rest ih =>
    intro last clast f hlast hall
    have ho := hall c (List.mem_cons_self _ _)
    simp only [runFallback]
    rcases hr : runAttempts (call c) 0 3 none with ⟨o, n⟩
    rw [hr] at ho
    simp only at ho
    subst ho
    cases rest with
    | nil =>
      simp only [List.getLast?_singleton, Option.some.injEq] at hlast
      subst hlast
      simp [runFallback, orElseErr]
    | cons r rs =>
      have hlast2 : (r :: rs).getLast? = some clast := by
        rwa [List.getLast?_cons_cons] at hlast
      simp only [orElseErr]
      exact ih _ clast f hlast2 (fun x hx => hall x (List.mem_cons_of_mem _ hx))

/-- C2: for each candidate the gateway makes at most 3 call attempts; a 400
failure stops that candidate only and advances to the next candidate; a
429/500/503 failure retries the same candidate; any other (nonzero) HTTP
status is rethrown immediately, with no further candidates tried; when every
candidate is exhausted without such a short-circuit, the last recorded error
is raised. -/
theorem fallback_policy_spec (call : String → Nat → CallResult) :
    (∀ chain last cn, cn ∈ (runFallback call chain last).2 → cn.2 ≤ 3) ∧
    (∀ c rest last m, call c 0 = .fail (some 400) m →
      runFallback call (c :: rest) last =
        ((runFallback call rest (some ⟨some 400, m⟩)).1,
         (c, 1) :: (runFallback call rest (some ⟨some 400, m⟩)).2)) ∧
    (∀ (f : Nat → CallResult) a r last s m, s = 429 ∨ s = 500 ∨ s = 503 →
      f a = .fail (some s) m →
      runAttempts f a (r + 1) last =
        ((runAttempts f (a + 1) r (some ⟨some s, m⟩)).1,
         (runAttempts f (a + 1) r (some ⟨some s, m⟩)).2 + 1)) ∧
    (∀ (f : Nat → CallResult) a r last s m, 0 < s → s ≠ 400 → s ≠ 429 → s ≠ 500 → s ≠ 503 →
      f a = .fail (some s) m →
      runAttempts f a (r + 1) last = (.fatal ⟨some s, m⟩, 1)) ∧
    (∀ c rest last e n, runAttempts (call c) 0 3 none = (.fatal e, n) →
      runFallback call (c :: rest) last = (.err e, [(c, n)])) ∧
    (∀ chain clast (f : String → CodexError), chain.getLast? = some clast →
      (∀ c, c ∈ chain → (runAttempts (call c) 0 3 none).1 = .giveUp (some (f c))) →
      (runFallback call chain none).1 = .err (f clast)) := by
  refine ⟨runFallback_trace_le call, ?_, ?_, ?_, ?_, ?_⟩
  · intro c rest last m h400
    have h1 : runAttempts (call c) 0 3 none = (.giveUp (some ⟨some 400, m⟩), 1) := by
      show runAttempts (call c) 0 (2 + 1) none = _
      rw [runAttempts_succ, h400]
      simp [isFatalStatus]
    simp [runFallback, h1, orElseErr]
  · intro f a r last s m hs hf
    rw [runAttempts_succ, hf]
    have h1 : isFatalStatus (some s) = false := by
      rcases hs with rfl | rfl | rfl <;> decide
    have h2 : ¬ (some s = some 400) := by
      rcases hs with rfl | rfl | rfl <;> decide
    simp [h1, h2]
  · intro f a r last s m hpos h400 h429 h500 h503 hf
    rw [runAttempts_succ, hf]
    have h1 : isFatalStatus (some s) = true := by
      simp only [isFatalStatus, Bool.and_eq_true, bne_iff_ne, ne_eq]
      refine ⟨⟨⟨⟨?_, h400⟩, h429⟩, h500⟩, h503⟩
      omega
    simp [h1]
  · intro c rest last e n hr
    simp [runFallback, hr]
  · intro chain clast f hlast hall
    exact runFallback_exhausted call chain none clast f hlast hall

/-- Witness for `fallback_policy_spec`: a 401 failure on the first attempt is
fatal immediately. -/
theorem fallback_policy_spec_witness :
    runAttempts (fun _ => CallResult.fail (some 401) "unauthorized") 0 3 none =
      (.fatal ⟨some 401, "unauthorized"⟩, 1) :=
  (fallback_policy_spec (fun _ _ => CallResult.fail (some 401) "unauthorized")).2.2.2.1
    (fun _ => CallResult.fail (some 401) "unauthorized") 0 2 none 401 "unauthorized"
    (by decide) (by decide) (by decide) (by decide) (by decide) rfl

/-- C10: an attempt failure carrying no HTTP status is retryable: it is
retried on the same candidate, never surfaces as an immediately-fatal error,
and after the 3-attempt cap the loop moves to the next candidate, recording
the failure only as the threaded last error, which is raised when all
candidates are exhausted. -/
theorem no_status_retry_spec (call : String → Nat → CallResult) :
    (∀ (f : Nat → CallResult) a r last m, f a = .fail none m →
      runAttempts f a (r + 1) last =
        ((runAttempts f (a + 1) r (some ⟨none, m⟩)).1,
         (runAttempts f (a + 1) r (some ⟨none, m⟩)).2 + 1)) ∧
    (∀ (f : Nat → CallResult) r a last e, (runAttempts f a r last).1 = .fatal e →
      e.status ≠ none) ∧
    (∀ c rest last (m : Nat → String), (∀ j, j < 3 → call c j = .fail none (m j)) →
      runFallback call (c :: rest) last =
        ((runFallback call rest (some ⟨none, m 2⟩)).1,
         (c, 3) :: (runFallback call rest (some ⟨none, m 2⟩)).2)) ∧
    (∀ e, runFallback call [] (some e) = (.err e, [])) := by
  refine ⟨?_, ?_, ?_, ?_⟩
  · intro f a r last m hf
    rw [runAttempts_succ, hf]
    simp [isFatalStatus]
  · intro f r
    induction r with
    | zero =>
      intro a last e h
      simp [runAttempts] at h
    | succ n ih =>
      intro a last e h
      rw [runAttempts_succ] at h
      rcases hfa : f a with out | ⟨st, m⟩ <;> rw [hfa] at h <;> dsimp only at h
      · simp at h
      · by_cases hfat : isFatalStatus st = true
        · rw [if_pos hfat] at h
          have he : e = (⟨st, m⟩ : CodexError) := by
            simpa using h.symm
          subst he
          simp only [ne_eq]
          intro hnone
          rw [hnone] at hfat
          simp [isFatalStatus] at hfat
        · rw [if_neg hfat] at h
          by_cases h400 : st = some 400
          · rw [if_pos h400] at h
            simp at h
          · rw [if_neg h400] at h
            exact ih (a + 1) (some ⟨st, m⟩) e h
  · intro c rest last m hcall
    have e0 := hcall 0 (by omega)
    have e1 := hcall 1 (by omega)
    have e2 := hcall 2 (by omega)
    have s2 : runAttempts (call c) 2 1 (some ⟨none, m 1⟩) =
        (.giveUp (some ⟨none, m 2⟩), 1) := by
      show runAttempts (call c) 2 (0 + 1) _ = _
      rw [runAttempts_succ, e2]
      simp [isFatalStatus, runAttempts]
    have s1 : runAttempts (call c) 1 2 (some ⟨none, m 0⟩) =
        (.giveUp (some ⟨none, m 2⟩), 2) := by
      show runAttempts (call c) 1 (1 + 1) _ = _
      rw [runAttempts_succ, e1]
      simp only [isFatalStatus, Bool.false_eq_true, if_false]
      rw [if_neg (by decide)]
      rw [s2]
    have s0 : runAttempts (call c) 0 3 none = (.giveUp (some ⟨none, m 2⟩), 3) := by
      show runAttempts (call c) 0 (2 + 1) _ = _
      rw [runAttempts_succ, e0]
      simp only [isFatalStatus, Bool.false_eq_true, if_false]
      rw [if_neg (by decide)]
      rw [s1]
    simp [runFallback, s0, orElseErr]
  · intro e
    simp [runFallback]

/-- Witness for `no_status_retry_spec`: a status-less failure is retried on
the same candidate (the attempt index advances). -/
theorem no_status_retry_spec_witness :
    runAttempts (fun _ => CallResult.fail none "network error") 0 1 none =
      ((runAttempts (fun _ => CallResult.fail none "network error") 1 0
          (some ⟨none, "network error"⟩)).1,
       (runAttempts (fun _ => CallResult.fail none "network error") 1 0
          (some ⟨none, "network error"⟩)).2 + 1) :=
  (no_status_retry_spec (fun _ _ => CallResult.ok "unused")).1
    (fun _ => CallResult.fail none "network error") 0 0 none "network error" rfl

/-! ## Lemmas about the session state machine -/

theorem clearPending_fields (s : SysState) :
    (clearPending s).pending = none ∧ (clearPending s).oauthState = s.oauthState ∧
    (clearPending s).disk = s.disk ∧ (clearPending s).writes = s.writes ∧
    (clearPending s).nextTimer = s.nextTimer ∧ (clearPending s).server = s.server := by
  cases hp : s.pending <;> simp [clearPending, hp]

theorem clearPending_timers (s : SysState) (h : timerInv s) :
    (clearPending s).activeTimers = [] := by
  cases hp : s.pending with
  | none =>
    simp only [timerInv, hp] at h
    simp [clearPending, hp, h]
  | some q =>
    simp only [timerInv, hp] at h
    simp [clearPending, hp, h.1]

theorem timerInv_stopClear (X : SysState) (hX : timerInv X) :
    timerInv (stopOAuthServer (clearPending X)) ∧
    (stopOAuthServer (clearPending X)).pending = none ∧
    (stopOAuthServer (clearPending X)).activeTimers = [] := by
  cases hXp : X.pending with
  | none =>
    simp only [timerInv, hXp] at hX
    simp [clearPending, stopOAuthServer, hXp, timerInv, hX]
  | some q =>
    simp only [timerInv, hXp] at hX
    simp [clearPending, stopOAuthServer, hXp, timerInv, hX.1]

theorem handleCallback_shape (ex : TokenResponse → Option String) (p : CallbackParams)
    (s : SysState) :
    ∃ X : SysState, (handleCallback ex p s).1 = stopOAuthServer (clearPending X) ∧
      X.pending = s.pending ∧ X.activeTimers = s.activeTimers ∧
      X.nextTimer = s.nextTimer := by
  unfold handleCallback
  split
  · exact ⟨_, rfl, rfl, rfl, rfl⟩
  · split
    · exact ⟨_, rfl, rfl, rfl, rfl⟩
    · split
      · exact ⟨_, rfl, rfl, rfl, rfl⟩
      · split
        · exact ⟨_, rfl, rfl, rfl, rfl⟩
        · exact ⟨_, rfl, rfl, rfl, rfl⟩

theorem timerInv_step (ex : TokenResponse → Option String) (s : SysState) (e : OAuthEvent)
    (h : timerInv s) : timerInv (oauthStep ex s e) := by
  cases e with
  | start v c st =>
    have h1 : timerInv { s with server := true } := h
    have hc := clearPending_timers { s with server := true } h1
    simp only [oauthStep, startAuthorize, timerInv]
    simp [hc]
  | callback p =>
    obtain ⟨X, heq, hp, ht, hn⟩ := handleCallback_shape ex p s
    have hX : timerInv X := by
      simp only [timerInv, hp, ht, hn]
      exact h
    simp only [oauthStep, heq]
    exact (timerInv_stopClear X hX).1
  | timeoutFire id =>
    simp only [oauthStep, fireTimeout]
    by_cases hid : id ∈ s.activeTimers
    · rw [if_pos hid]
      cases hsp : s.pending with
      | none =>
        simp only [timerInv, hsp] at h
        rw [h] at hid
        simp at hid
      | some q =>
        simp only [timerInv, hsp] at h
        have hidq : id = q.timerId := by
          rw [h.1] at hid
          simpa using hid
        subst hidq
        simp [clearPending, stopOAuthServer, timerInv, hsp, h.1]
    · rw [if_neg hid]
      exact h
  | cancel =>
    simp only [oauthStep, handleCancel]
    exact (timerInv_stopClear
      { s with oauthState := { status := .error, error := some "Login cancelled" } } h).1

theorem timerInv_run (ex : TokenResponse → Option String) (evs : List OAuthEvent) :
    ∀ s, timerInv s → timerInv (oauthRun ex s evs) := by
  induction evs with
  | nil => intro s h; exact h
  | cons e t ih =>
    intro s h
    simp only [oauthRun, List.foldl_cons]
    exact ih _ (timerInv_step ex s e h)

theorem timerInv_length (s : SysState) (h : timerInv s) : s.activeTimers.length ≤ 1 := by
  cases hp : s.pending with
  | none => simp only [timerInv, hp] at h; simp [h]
  | some q => simp only [timerInv, hp] at h; simp [h.1]

theorem stopClear_writes (X : SysState) :
    (stopOAuthServer (clearPending X)).writes = X.writes := by
  cases hp : X.pending <;> simp [stopOAuthServer, clearPending, hp]

theorem stopClear_status (X : SysState) :
    (stopOAuthServer (clearPending X)).oauthState = X.oauthState := by
  cases hp : X.pending <;> simp [stopOAuthServer, clearPending, hp]

theorem writes_step (ex : TokenResponse → Option String) (s : SysState) (e : OAuthEvent) :
    (oauthStep ex s e).writes = s.writes + (if succeedsOn s e then 1 else 0) := by
  cases e with
  | start v c st =>
    have hw : (clearPending { s with server := true }).writes = s.writes :=
      (clearPending_fields _).2.2.2.1
    simp [oauthStep, startAuthorize, succeedsOn, hw]
  | callback p =>
    by_cases h1 : truthyOpt p.error
    · have hres : (handleCallback ex p s).1 = stopOAuthServer (clearPending
          { s with oauthState := ⟨.error,
              some (if truthyOpt p.errorDescription then p.errorDescription.getD "" else p.error.getD "")⟩ }) := by
        simp [handleCallback, h1]
      have hso : succeedsOn s (.callback p) = false := by
        simp [succeedsOn, h1]
      simp [oauthStep, hres, stopClear_writes, hso]
    · by_cases h2 : truthyOpt p.code
      · by_cases h3 : stateMismatch s.pending p.state
        · have hres : (handleCallback ex p s).1 = stopOAuthServer (clearPending
              { s with oauthState := ⟨.error, some "Invalid state - potential CSRF attack"⟩ }) := by
            simp [handleCallback, h1, h2, h3]
          have hso : succeedsOn s (.callback p) = false := by
            simp [succeedsOn, h3]
          simp [oauthStep, hres, stopClear_writes, hso]
        · rcases hex : p.exchange with msg | tok
          · have hres : (handleCallback ex p s).1 = stopOAuthServer (clearPending
                { s with oauthState := { status := .error, error := some msg } }) := by
              simp [handleCallback, h1, h2, h3, hex]
            have hso : succeedsOn s (.callback p) = false := by
              simp [succeedsOn, hex]
            simp [oauthStep, hres, stopClear_writes, hso]
          · have hres : (handleCallback ex p s).1 = stopOAuthServer (clearPending
                { s with
                  disk := some ⟨"oauth", tok.access_token, tok.refresh_token,
                    p.now + (tok.expires_in.getD 3600) * 1000, accountIdField (ex tok) none⟩,
                  writes := s.writes + 1,
                  oauthState := ⟨.success, none⟩ }) := by
              simp [handleCallback, h1, h2, h3, hex]
            have hso : succeedsOn s (.callback p) = true := by
              simp [succeedsOn, h1, h2, h3, hex]
            simp [oauthStep, hres, stopClear_writes, hso]
      · have hres : (handleCallback ex p s).1 = stopOAuthServer (clearPending
            { s with oauthState := ⟨.error, some "Missing authorization code"⟩ }) := by
          simp only [handleCallback]
          rw [if_neg h1, if_pos (by simpa using h2)]
        have hso : succeedsOn s (.callback p) = false := by
          simp [succeedsOn, h2]
        simp [oauthStep, hres, stopClear_writes, hso]
  | timeoutFire id =>
    have hso : succeedsOn s (.timeoutFire id) = false := by simp [succeedsOn]
    rw [hso]
    by_cases hid : id ∈ s.activeTimers
    · simp only [oauthStep, fireTimeout, if_pos hid]
      rw [stopClear_writes]
      simp
    · simp [oauthStep, fireTimeout, hid]
  | cancel =>
    have hso : succeedsOn s .cancel = false := by simp [succeedsOn]
    rw [hso]
    simp only [oauthStep, handleCancel]
    rw [stopClear_writes]
    simp

theorem success_step (ex : TokenResponse → Option String) (s : SysState) (e : OAuthEvent) :
    (succeedsOn s e = true → (oauthStep ex s e).oauthState.status = .success) ∧
    (s.oauthState.status ≠ .success → (oauthStep ex s e).oauthState.status = .success →
      succeedsOn s e = true) := by
  cases e with
  | start v c st =>
    refine ⟨fun h => by simp [succeedsOn] at h, fun _ h => ?_⟩
    exfalso
    have hp2 : (oauthStep ex s (.start v c st)).oauthState.status = .pending := by
      simp [oauthStep, startAuthorize]
    rw [hp2] at h
    exact absurd h (by simp)
  | callback p =>
    constructor
    · intro h
      simp only [succeedsOn, Bool.and_eq_true, Bool.not_eq_true] at h
      obtain ⟨⟨⟨h1, h2⟩, h3⟩, h4⟩ := h
      have h3p : ¬ stateMismatch s.pending p.state := by
        simpa using h3
      have h1f : truthyOpt p.error = false := by simpa using h1
      rcases hex : p.exchange with msg | tok
      · rw [hex] at h4; simp at h4
      · have hres : (handleCallback ex p s).1 = stopOAuthServer (clearPending
            { s with
              disk := some ⟨"oauth", tok.access_token, tok.refresh_token,
                p.now + (tok.expires_in.getD 3600) * 1000, accountIdField (ex tok) none⟩,
              writes := s.writes + 1,
              oauthState := ⟨.success, none⟩ }) := by
          simp [handleCallback, h1f, h2, h3p, hex]
        simp [oauthStep, hres, stopClear_status]
    · intro hpre h
      by_cases h1 : truthyOpt p.error
      · exfalso
        have hres : (handleCallback ex p s).1 = stopOAuthServer (clearPending
            { s with oauthState := ⟨.error,
                some (if truthyOpt p.errorDescription then p.errorDescription.getD "" else p.error.getD "")⟩ }) := by
          simp [handleCallback, h1]
        rw [show (oauthStep ex s (.callback p)) = (handleCallback ex p s).1 from rfl,
          hres, stopClear_status] at h
        exact absurd h (by simp)
      · by_cases h2 : truthyOpt p.code
        · by_cases h3 : stateMismatch s.pending p.state
          · exfalso
            have hres : (handleCallback ex p s).1 = stopOAuthServer (clearPending
                { s with oauthState := ⟨.error, some "Invalid state - potential CSRF attack"⟩ }) := by
              simp [handleCallback, h1, h2, h3]
            rw [show (oauthStep ex s (.callback p)) = (handleCallback ex p s).1 from rfl,
              hres, stopClear_status] at h
            exact absurd h (by simp)
          · rcases hex : p.exchange with msg | tok
            · exfalso
              have hres : (handleCallback ex p s).1 = stopOAuthServer (clearPending
                  { s with oauthState := { status := .error, error := some msg } }) := by
                simp [handleCallback, h1, h2, h3, hex]
              rw [show (oauthStep ex s (.callback p)) = (handleCallback ex p s).1 from rfl,
                hres, stopClear_status] at h
              exact absurd h (by simp)
            · simp [succeedsOn, h1, h2, h3, hex]
        · exfalso
          have hres : (handleCallback ex p s).1 = stopOAuthServer (clearPending
              { s with oauthState := ⟨.error, some "Missing authorization code"⟩ }) := by
            simp only [handleCallback]
            rw [if_neg h1, if_pos (by simpa using h2)]
          rw [show (oauthStep ex s (.callback p)) = (handleCallback ex p s).1 from rfl,
            hres, stopClear_status] at h
          exact absurd h (by simp)
  | timeoutFire id =>
    refine ⟨fun h => by simp [succeedsOn] at h, fun hpre h => ?_⟩
    exfalso
    by_cases hid : id ∈ s.activeTimers
    · have hst : (oauthStep ex s (.timeoutFire id)).oauthState.status = .error := by
        simp only [oauthStep, fireTimeout, if_pos hid]
        rw [stopClear_status]
      rw [hst] at h
      exact absurd h (by simp)
    · have hst : (oauthStep ex s (.timeoutFire id)).oauthState.status =
          s.oauthState.status := by
        simp [oauthStep, fireTimeout, hid]
      rw [hst] at h
      exact hpre h
  | cancel =>
    refine ⟨fun h => by simp [succeedsOn] at h, fun hpre h => ?_⟩
    exfalso
    have hst : (oauthStep ex s .cancel).oauthState.status = .error := by
      simp only [oauthStep, handleCancel]
      rw [stopClear_status]
    rw [hst] at h
    exact absurd h (by simp)

/-- C7: along every event sequence at most one session is pending and at most
one timer is armed; Start cancels the prior session timer before arming a
fresh one; and exactly the terminal-success callback steps write a persisted
credential (one write each). -/
theorem single_session_spec (ex : TokenResponse → Option String) :
    (∀ evs, timerInv (oauthRun ex initState evs)) ∧
    (∀ evs, (oauthRun ex initState evs).activeTimers.length ≤ 1) ∧
    (∀ s v c st, timerInv s →
      (startAuthorize v c st s).pending ≠ none ∧
      (startAuthorize v c st s).activeTimers = [s.nextTimer] ∧
      (∀ q, s.pending = some q → q.timerId ∉ (startAuthorize v c st s).activeTimers)) ∧
    (∀ s e, (oauthStep ex s e).writes = s.writes + (if succeedsOn s e then 1 else 0)) ∧
    (∀ s e, succeedsOn s e = true → (oauthStep ex s e).oauthState.status = .success) ∧
    (∀ s e, s.oauthState.status ≠ .success → (oauthStep ex s e).oauthState.status = .success →
      succeedsOn s e = true) := by
  refine ⟨?_, ?_, ?_, writes_step ex, fun s e => (success_step ex s e).1,
    fun s e => (success_step ex s e).2⟩
  · intro evs
    exact timerInv_run ex evs initState (by decide)
  · intro evs
    exact timerInv_length _ (timerInv_run ex evs initState (by decide))
  · intro s v c st h
    have h1 : timerInv { s with server := true } := h
    have hc := clearPending_timers { s with server := true } h1
    have hn : (clearPending { s with server := true }).nextTimer = s.nextTimer :=
      (clearPending_fields _).2.2.2.2.1
    refine ⟨by simp [startAuthorize], ?_, ?_⟩
    · simp [startAuthorize, hc, hn]
    · intro q hq hmem
      simp only [startAuthorize, hc, hn] at hmem
      simp only [List.nil_append, List.mem_singleton] at hmem
      cases hsp : s.pending with
      | none => rw [hsp] at hq; cases hq
      | some q2 =>
        rw [hsp] at hq
        cases hq
        simp only [timerInv, hsp] at h
        omega

/-- Witness for `single_session_spec`: starting from the initial state arms
exactly the fresh timer. -/
theorem single_session_spec_witness :
    (startAuthorize "v" "c" "st" initState).activeTimers = [initState.nextTimer] :=
  ((single_session_spec (fun _ => none)).2.2.1 initState "v" "c" "st" (by decide)).2.1

/-! ## SSE accumulation rules -/

/-- C3: a delta event appends its delta string to the output; a done event's
full text, or a response-level output_text field, is used as the entire output
only when the output accumulated so far is empty, with the first non-empty
source winning and later sources ignored once the output is non-empty;
[DONE], empty, and malformed JSON payloads are skipped without aborting; an
empty body yields the empty output; and the spec scenario stream accumulates
to "Hello". -/
theorem sse_accumulation_spec :
    (∀ out j d, asStr (jget j typeKey) = some deltaType →
      asStr (jget j deltaKey) = some d → out ++ d ≠ [] →
      applyEvent out j = out ++ d) ∧
    (∀ out j t, out = [] → asStr (jget j typeKey) = some doneType →
      asStr (jget j textKey) = some t → t ≠ [] →
      applyEvent out j = t) ∧
    (∀ out j v, out = [] → asStr (jget j typeKey) = none →
      asStr ((jget j responseKey).bind (fun r => jget r outputTextKey)) = some v →
      v ≠ [] → applyEvent out j = v) ∧
    (∀ out j, out ≠ [] → asStr (jget j typeKey) ≠ some deltaType →
      applyEvent out j = out) ∧
    (∀ out part, partData part = [] ∨ partData part = doneMarker ∨
      jsonParse (partData part) = none →
      processPart out part = out) ∧
    decodeStream [] = [] ∧
    decodeStream [sseScenarioBody] = "Hello".toList := by
  have hdd : deltaType ≠ doneType := by decide
  refine ⟨?_, ?_, ?_, ?_, ?_, rfl, by rfl⟩
  · intro out j d h1 h2 h3
    simp [applyEvent, h1, h2, h3, hdd]
  · intro out j t hout h1 h2 h3
    subst hout
    simp [applyEvent, h1, h2, h3, Ne.symm hdd]
  · intro out j v hout h1 h2 h3
    subst hout
    simp [applyEvent, h1, h2, h3]
  · intro out j h1 h2
    simp [applyEvent, h1, h2]
  · intro out part h
    simp only [processPart]
    split
    · rfl
    · rcases h with h | h | h
      · simp [h]
      · simp [h]
      · by_cases hc : partData part = [] ∨ partData part = doneMarker
        · simp [hc]
        · simp [hc, h]

/-- Witness for `sse_accumulation_spec`: a concrete delta event appends its
delta string. -/
theorem sse_accumulation_spec_witness :
    applyEvent [] (Json.obj [(typeKey, Json.str deltaType), (deltaKey, Json.str ['h', 'i'])]) =
      [] ++ ['h', 'i'] :=
  sse_accumulation_spec.1 [] _ ['h', 'i'] (by decide) (by decide) (by decide)

end Stackfish
